import Mathlib

/-!
# Calculadora Freelance: the pricing engine of `src/App.jsx`

A shallow embedding of the pure arithmetic of `App.jsx`:
`num` (numeric coercion), `computePro` (rate engine), the `totals` reducer with
its derived KPIs (log rollup), the comparator derivations, and the log handlers
`addLog`, `delLog` and `clearLog` as functions on the log.

Number model. A JavaScript number that is finite is modelled as an exact
rational `ℚ`; `NaN` and the two infinities are separate constructors of
`JSNumber`.  Arithmetic on finite numbers is exact: IEEE-754 rounding and
overflow to `Infinity` are not modelled.  Every number that reaches the
arithmetic of the engine has passed through `num`, whose `Number.isFinite`
test guarantees a finite value, so the engine itself computes in `ℚ`.
-/

namespace CalculadoraFreelance

/-! ## JavaScript values -/

/-- A JavaScript number: a finite value, `NaN`, `Infinity` or `-Infinity`. -/
inductive JSNumber where
  | finite (q : ℚ)
  | nan
  | posInf
  | negInf
  deriving DecidableEq

/-- The values a state field or a log field can hold: absent (`undefined`), `null`,
a number, or the text typed in an input. -/
inductive JSVal where
  | undefined
  | null
  | number (x : JSNumber)
  | string (s : String)
  deriving DecidableEq

/-! ## `parseFloat` -/

/-- White space and line terminators skipped by `parseFloat` (ECMAScript `TrimString`). -/
def isJSWhiteSpace (c : Char) : Bool :=
  c.toNat = 0x09 || c.toNat = 0x0A || c.toNat = 0x0B || c.toNat = 0x0C || c.toNat = 0x0D ||
  c.toNat = 0x20 || c.toNat = 0xA0 || c.toNat = 0x1680 ||
  (0x2000 ≤ c.toNat && c.toNat ≤ 0x200A) ||
  c.toNat = 0x2028 || c.toNat = 0x2029 || c.toNat = 0x202F || c.toNat = 0x205F ||
  c.toNat = 0x3000 || c.toNat = 0xFEFF

/-- A decimal digit `0`..`9`. -/
def isDecDigit (c : Char) : Bool := 0x30 ≤ c.toNat && c.toNat ≤ 0x39

/-- The value of a decimal digit. -/
def digitVal (c : Char) : Nat := c.toNat - 0x30

/-- The natural number written by a list of decimal digits (empty list: 0). -/
def digitsVal (ds : List Char) : Nat := ds.foldl (fun n c => 10 * n + digitVal c) 0

/-- The exponent part `e[+-]?digits` at the head of `cs`, when it is there; otherwise 0
(an `e` that is not followed by digits is not part of the literal). -/
def exponentPart (cs : List Char) : Int :=
  match cs with
  | c :: rest =>
    if c = 'e' || c = 'E' then
      match rest with
      | '+' :: ds =>
        if (ds.takeWhile isDecDigit).isEmpty then 0 else (digitsVal (ds.takeWhile isDecDigit) : Int)
      | '-' :: ds =>
        if (ds.takeWhile isDecDigit).isEmpty then 0 else -(digitsVal (ds.takeWhile isDecDigit) : Int)
      | ds =>
        if (ds.takeWhile isDecDigit).isEmpty then 0 else (digitsVal (ds.takeWhile isDecDigit) : Int)
    else 0
  | [] => 0

/-- An unsigned literal read by `parseFloat`: `Infinity`, or the decimal `m * 10 ^ e`. -/
inductive ParsedLit where
  | inf
  | dec (m : Nat) (e : Int)
  deriving DecidableEq

/-- The longest prefix of `cs` that is a `StrUnsignedDecimalLiteral`
(`Infinity`, `digits . digits? exp?`, `. digits exp?` or `digits exp?`);
`none` when no prefix is one. -/
def parseUnsigned (cs : List Char) : Option ParsedLit :=
  if "Infinity".toList.isPrefixOf cs then some ParsedLit.inf
  else
    let ip := cs.takeWhile isDecDigit
    let r1 := cs.dropWhile isDecDigit
    match r1 with
    | '.' :: r2 =>
      let fp := r2.takeWhile isDecDigit
      let r3 := r2.dropWhile isDecDigit
      if ip.isEmpty && fp.isEmpty then none
      else some (ParsedLit.dec (digitsVal (ip ++ fp)) (exponentPart r3 - (fp.length : Int)))
    | _ =>
      if ip.isEmpty then none
      else some (ParsedLit.dec (digitsVal ip) (exponentPart r1))

/-- The exact value `m * 10 ^ e`. -/
def scale10 (m : Nat) (e : Int) : ℚ :=
  if 0 ≤ e then (m : ℚ) * (10 : ℚ) ^ e.toNat else (m : ℚ) / (10 : ℚ) ^ (-e).toNat

/-- The number denoted by a literal. -/
def ParsedLit.value : ParsedLit → JSNumber
  | ParsedLit.inf => JSNumber.posInf
  | ParsedLit.dec m e => JSNumber.finite (scale10 m e)

/-- Negation of a JavaScript number. -/
def JSNumber.neg : JSNumber → JSNumber
  | JSNumber.finite q => JSNumber.finite (-q)
  | JSNumber.nan => JSNumber.nan
  | JSNumber.posInf => JSNumber.negInf
  | JSNumber.negInf => JSNumber.posInf

/-- Model of `parseFloat(str)`: leading white space is skipped, the longest prefix that is a
`StrDecimalLiteral` is read, and `NaN` is returned when there is none. -/
def parseFloat (str : String) : JSNumber :=
  match str.toList.dropWhile isJSWhiteSpace with
  | '+' :: cs => ((parseUnsigned cs).map ParsedLit.value).getD JSNumber.nan
  | '-' :: cs => ((parseUnsigned cs).map (fun l => l.value.neg)).getD JSNumber.nan
  | cs => ((parseUnsigned cs).map ParsedLit.value).getD JSNumber.nan

/-- Model of `s.replace(",", ".")` with a string pattern: only the first comma is replaced. -/
def replaceFirstComma : List Char → List Char
  | [] => []
  | c :: cs => if c = ',' then '.' :: cs else c :: replaceFirstComma cs

/-- Model of `parseFloat(String(v ?? "").replace(",", "."))`.  For a number `v` the text
`String(v)` holds no comma and `parseFloat` reads it back to `v` (`Number::toString`
round-trips), so the composite is the identity on numbers. -/
def parseCoerced : JSVal → JSNumber
  | JSVal.undefined => parseFloat (String.mk (replaceFirstComma "".toList))
  | JSVal.null => parseFloat (String.mk (replaceFirstComma "".toList))
  | JSVal.number x => x
  | JSVal.string s => parseFloat (String.mk (replaceFirstComma s.toList))

/-- Source: `function num(v, d = 0) { const n = parseFloat(String(v ?? "").replace(",", "."));
return Number.isFinite(n) ? n : d; }`. -/
def num (v : JSVal) (d : ℚ := 0) : ℚ :=
  match parseCoerced v with
  | JSNumber.finite n => n
  | _ => d

/-- Source: `const nearly = (a, b, eps = 0.01) => Math.abs(a - b) <= eps;`. -/
def nearly (a b : ℚ) (eps : ℚ := 1 / 100) : Bool := decide (|a - b| ≤ eps)

/-! ## Rate engine -/

/-- The numeric fields of the application state read by the engine. -/
structure State where
  pro_monthlyTarget : JSVal
  pro_projectsPerMonth : JSVal
  pro_hoursPerProject : JSVal
  pro_toolsMonthly : JSVal
  pro_taxPct : JSVal
  cmp_price : JSVal
  cmp_hours : JSVal

/-- Source: the numeric fields of `DEFAULTS`. -/
def DEFAULTS : State where
  pro_monthlyTarget := JSVal.number (JSNumber.finite 1500)
  pro_projectsPerMonth := JSVal.number (JSNumber.finite 6)
  pro_hoursPerProject := JSVal.number (JSNumber.finite 8)
  pro_toolsMonthly := JSVal.number (JSNumber.finite 15)
  pro_taxPct := JSVal.number (JSNumber.finite 10)
  cmp_price := JSVal.number (JSNumber.finite 250)
  cmp_hours := JSVal.number (JSNumber.finite 6)

/-- The object returned by `computePro`. -/
structure ProResult where
  totalHours : ℚ
  minHourly : ℚ
  minProject : ℚ
  finalPrice : ℚ
  minMonthlyRevenue : ℚ
  deriving DecidableEq

/-- Source: `function computePro(s)`. -/
def computePro (s : State) : ProResult :=
  let target := max (num s.pro_monthlyTarget) (1 / 100)
  let projects := max (num s.pro_projectsPerMonth) 1
  let hrsPer := max (num s.pro_hoursPerProject) (1 / 10)
  let tools := max (num s.pro_toolsMonthly) 0
  let taxPct := max (num s.pro_taxPct) 0 / 100
  let totalHours := projects * hrsPer
  let minHourly := (target + tools) / totalHours
  let minProject := minHourly * hrsPer
  let finalPrice := minProject * (1 + taxPct)
  { totalHours := totalHours, minHourly := minHourly, minProject := minProject,
    finalPrice := finalPrice, minMonthlyRevenue := minProject * projects }

/-- The configuration after coercion and flooring, as the rate engine uses it
(spec, data model `PricingConfig`; `taxPct` is still a percentage here). -/
structure PricingConfig where
  monthlyTarget : ℚ
  projectsPerMonth : ℚ
  hoursPerProject : ℚ
  toolsMonthly : ℚ
  taxPct : ℚ

/-- Reference, from the spec's words: the floors `monthlyTarget ≥ 0.01`, `projectsPerMonth ≥ 1`,
`hoursPerProject ≥ 0.1`, `toolsMonthly ≥ 0`, `taxPct ≥ 0`, applied to the coerced fields. -/
def flooredConfig (s : State) : PricingConfig where
  monthlyTarget := max (num s.pro_monthlyTarget) (1 / 100)
  projectsPerMonth := max (num s.pro_projectsPerMonth) 1
  hoursPerProject := max (num s.pro_hoursPerProject) (1 / 10)
  toolsMonthly := max (num s.pro_toolsMonthly) 0
  taxPct := max (num s.pro_taxPct) 0

/-- Reference, from the spec's words (`DerivedRates`): the five derived rates of a floored
configuration, each written out over the configuration's fields. -/
def computeRatesSpec (c : PricingConfig) : ProResult where
  totalHours := c.projectsPerMonth * c.hoursPerProject
  minHourly := (c.monthlyTarget + c.toolsMonthly) / (c.projectsPerMonth * c.hoursPerProject)
  minProject :=
    (c.monthlyTarget + c.toolsMonthly) / (c.projectsPerMonth * c.hoursPerProject)
      * c.hoursPerProject
  finalPrice :=
    (c.monthlyTarget + c.toolsMonthly) / (c.projectsPerMonth * c.hoursPerProject)
      * c.hoursPerProject * (1 + c.taxPct / 100)
  minMonthlyRevenue :=
    (c.monthlyTarget + c.toolsMonthly) / (c.projectsPerMonth * c.hoursPerProject)
      * c.hoursPerProject * c.projectsPerMonth

/-! ## Comparator -/

/-- Source: `const realHourly = Math.max(num(state.cmp_price), 0.01) /
Math.max(num(state.cmp_hours), 0.1);`. -/
def realHourly (state : State) : ℚ :=
  max (num state.cmp_price) (1 / 100) / max (num state.cmp_hours) (1 / 10)

/-- Source: `const diffHourly = realHourly - pro.minHourly;`. -/
def diffHourly (state : State) (pro : ProResult) : ℚ :=
  realHourly state - pro.minHourly

/-- Source: `const diagText = diffHourly >= 0 ? "Bien: ..." : "Atención: ...";`. -/
def diagText (state : State) (pro : ProResult) : String :=
  if diffHourly state pro ≥ 0 then "Bien: estás cobrando en o por encima de tu mínima."
  else "Atención: estás por debajo de tu mínima. Subí precio, recortá alcance o extendé plazos."

/-- Source: `const diagColor = diffHourly >= 0 ? "#16a34a" : "#ef4444";`. -/
def diagColor (state : State) (pro : ProResult) : String :=
  if diffHourly state pro ≥ 0 then "#16a34a" else "#ef4444"

/-! ## Log rollup -/

/-- A record of the log (`rec` in `addLog`). -/
structure LogRec where
  id : String
  name : String
  price : JSVal
  hours : JSVal
  date : String

/-- The accumulator of the `totals` reducer. -/
structure Totals where
  projects : ℚ
  hours : ℚ
  revenue : ℚ
  realHourlyWeighted : ℚ
  above : ℚ
  below : ℚ
  deriving DecidableEq

/-- Source: the initial accumulator
`{ projects:0, hours:0, revenue:0, realHourlyWeighted:0, above:0, below:0 }`. -/
def Totals.init : Totals :=
  { projects := 0, hours := 0, revenue := 0, realHourlyWeighted := 0, above := 0, below := 0 }

/-- Source: the body of the reducer `(acc, r) => { ... return acc; }`. -/
def totalsStep (pro : ProResult) (acc : Totals) (r : LogRec) : Totals :=
  let price := num r.price 0
  let hours := num r.hours 0
  let realH := if hours > 0 then price / hours else 0
  { projects := acc.projects + 1
    hours := acc.hours + hours
    revenue := acc.revenue + price
    realHourlyWeighted := acc.realHourlyWeighted + realH * hours
    above := if hours > 0 then (if realH ≥ pro.minHourly then acc.above + 1 else acc.above)
             else acc.above
    below := if hours > 0 then (if realH ≥ pro.minHourly then acc.below else acc.below + 1)
             else acc.below }

/-- Source: `const totals = log.reduce(..., { projects:0, ... })`. -/
def totals (log : List LogRec) (pro : ProResult) : Totals :=
  log.foldl (totalsStep pro) Totals.init

/-- Source: `const avgRealHourly = totals.hours > 0 ? totals.realHourlyWeighted / totals.hours : 0;`. -/
def avgRealHourly (t : Totals) : ℚ :=
  if t.hours > 0 then t.realHourlyWeighted / t.hours else 0

/-- Source: `const pctAbove = totals.projects > 0 ? (totals.above / totals.projects) * 100 : 0;`. -/
def pctAbove (t : Totals) : ℚ :=
  if t.projects > 0 then (t.above / t.projects) * 100 else 0

/-- Source: `const pctBelow = totals.projects > 0 ? (totals.below / totals.projects) * 100 : 0;`. -/
def pctBelow (t : Totals) : ℚ :=
  if t.projects > 0 then (t.below / t.projects) * 100 else 0

/-- The divisors of the `/` operations that the rollup evaluates on a log, in evaluation
order: `price / hours` inside the reducer (evaluated only when `hours > 0`), then
`realHourlyWeighted / totals.hours` (only when `totals.hours > 0`), then
`above / totals.projects` and `below / totals.projects` (only when `totals.projects > 0`). -/
def rollupDivisors (log : List LogRec) (pro : ProResult) : List ℚ :=
  (log.filter (fun r => decide (num r.hours 0 > 0))).map (fun r => num r.hours 0)
    ++ (if (totals log pro).hours > 0 then [(totals log pro).hours] else [])
    ++ (if (totals log pro).projects > 0
          then [(totals log pro).projects, (totals log pro).projects] else [])

/-- Source: the per-entry real rate, `h > 0 ? p / h : 0` with `p = num(r.price)` and
`h = num(r.hours)` (the log table, the CSV rows and `realH` in the reducer). -/
def realRate (r : LogRec) : ℚ :=
  if num r.hours 0 > 0 then num r.price 0 / num r.hours 0 else 0

/-- Reference, from the spec's words: the simple mean of the per-project rates,
`mean(realHourly_i)`, which the weighted average is contrasted with. -/
def meanRealRate (log : List LogRec) : ℚ :=
  (log.map realRate).sum / (log.length : ℚ)

/-- Source: `Number.isFinite(n)`. -/
def JSNumber.isFinite : JSNumber → Bool
  | JSNumber.finite _ => true
  | _ => false

/-- Source: `function num(v, d = 0)` with a fallback `d` that is any JavaScript number
(`num` above is this function at a finite fallback). -/
def numJS (v : JSVal) (d : JSNumber) : JSNumber :=
  if (parseCoerced v).isFinite then parseCoerced v else d

/-! ## Log handlers -/

/-- The decimal digits of a natural number, most significant first (`0` is `"0"`). -/
def natDigits (n : Nat) : List Char :=
  if n = 0 then ['0'] else (Nat.digits 10 n).reverse.map Nat.digitChar

/-- The digits after the decimal point of `r / den` (with `r < den`), by long division, at
most `fuel` of them; the expansion stops when the remainder is 0. -/
def fracDigits : Nat → Nat → Nat → List Char
  | 0, _, _ => []
  | fuel + 1, r, den =>
    if r = 0 then [] else Nat.digitChar (10 * r / den) :: fracDigits fuel (10 * r % den) den

/-- The decimal expansion of `|q|`: integer digits, then a point and the fractional digits
when there are any.  A number read by `parseFloat` has a finite expansion, of at most
`q.den` fractional digits. -/
def absDecimal (q : ℚ) : List Char :=
  natDigits (q.num.natAbs / q.den) ++
    (if q.num.natAbs % q.den = 0 then []
     else '.' :: fracDigits q.den (q.num.natAbs % q.den) q.den)

/-- Model of `String(n)` for a finite number `n`: a minus sign when `n < 0`, then the decimal
expansion of `|n|` in positional notation.  (JavaScript writes magnitudes from `1e21` and
below `1e-6` with an exponent; `parseFloat` reads either form back to the same number.) -/
def numberToString (q : ℚ) : String :=
  String.mk (if q < 0 then '-' :: absDecimal q else absDecimal q)

/-- The form state `logInput`: the texts typed in the four fields. -/
structure LogInput where
  name : String
  price : String
  hours : String
  date : String

/-- Source: `addLog`, as the updater `(L) => [rec, ...L]` it passes to `setLog`.
`newId` is the value of `cryptoRandom()` and `today` that of
`new Date().toISOString().slice(0,10)`. -/
def addLog (logInput : LogInput) (newId today : String) (L : List LogRec) : List LogRec :=
  { id := newId
    name := if logInput.name = "" then "Proyecto" else logInput.name
    price := JSVal.string (numberToString (num (JSVal.string logInput.price) 0))
    hours := JSVal.string (numberToString (num (JSVal.string logInput.hours) 0))
    date := if logInput.date = "" then today else logInput.date } :: L

/-- Source: `delLog`, as the updater `(L) => L.filter(r => r.id !== id)`. -/
def delLog (id : String) (L : List LogRec) : List LogRec :=
  L.filter (fun r => r.id != id)

/-- Source: `clearLog`: `if (confirm("¿Vaciar registro?")) setLog([])`; `confirmed` is the
answer to the dialog. -/
def clearLog (confirmed : Bool) (L : List LogRec) : List LogRec :=
  if confirmed then [] else L

/-- A user action on the log. -/
inductive LogAction where
  | add (logInput : LogInput) (newId today : String)
  | del (id : String)
  | clear (confirmed : Bool)

/-- The effect of one action on the log. -/
def LogAction.apply : LogAction → List LogRec → List LogRec
  | LogAction.add logInput newId today, L => addLog logInput newId today L
  | LogAction.del id, L => delLog id L
  | LogAction.clear confirmed, L => clearLog confirmed L

/-- The log after a sequence of actions, starting from the empty log. -/
def runLog (actions : List LogAction) : List LogRec :=
  actions.foldl (fun L a => a.apply L) []

/-! ## Coercion lemmas -/

@[simp] theorem num_number_finite (q d : ℚ) : num (JSVal.number (JSNumber.finite q)) d = q := rfl

/-! ## Rate engine: theorems -/

theorem floor_target_pos (v : JSVal) : (0 : ℚ) < max (num v) (1 / 100) :=
  lt_of_lt_of_le (by norm_num) (le_max_right _ _)

theorem floor_projects_pos (v : JSVal) : (0 : ℚ) < max (num v) 1 :=
  lt_of_lt_of_le (by norm_num) (le_max_right _ _)

theorem floor_hours_pos (v : JSVal) : (0 : ℚ) < max (num v) (1 / 10) :=
  lt_of_lt_of_le (by norm_num) (le_max_right _ _)

theorem totalHours_ge (s : State) : (1 / 10 : ℚ) ≤ (computePro s).totalHours := by
  have h1 : (1 : ℚ) ≤ max (num s.pro_projectsPerMonth) 1 := le_max_right _ _
  have h2 : (1 / 10 : ℚ) ≤ max (num s.pro_hoursPerProject) (1 / 10) := le_max_right _ _
  show (1 / 10 : ℚ) ≤ max (num s.pro_projectsPerMonth) 1 * max (num s.pro_hoursPerProject) (1 / 10)
  nlinarith

theorem totalHours_pos (s : State) : 0 < (computePro s).totalHours :=
  lt_of_lt_of_le (by norm_num) (totalHours_ge s)

/-- C1. For every state `s`, `computePro s` is the reference rate computation of the spec
applied to the floored configuration; field by field, with `target`, `projects`, `hrsPer`,
`tools` the floored coerced inputs and `tax` the floored percentage over 100:
`totalHours = projects × hrsPer`, `minHourly = (target + tools) / totalHours`,
`minProject = minHourly × hrsPer`, `finalPrice = minProject × (1 + tax)` and
`minMonthlyRevenue = minProject × projects`. -/
theorem computePro_eq_computeRatesSpec (s : State) :
    computePro s = computeRatesSpec (flooredConfig s) ∧
    (computePro s).totalHours
      = max (num s.pro_projectsPerMonth) 1 * max (num s.pro_hoursPerProject) (1 / 10) ∧
    (computePro s).minHourly
      = (max (num s.pro_monthlyTarget) (1 / 100) + max (num s.pro_toolsMonthly) 0)
          / (computePro s).totalHours ∧
    (computePro s).minProject
      = (computePro s).minHourly * max (num s.pro_hoursPerProject) (1 / 10) ∧
    (computePro s).finalPrice
      = (computePro s).minProject * (1 + max (num s.pro_taxPct) 0 / 100) ∧
    (computePro s).minMonthlyRevenue
      = (computePro s).minProject * max (num s.pro_projectsPerMonth) 1 := by
  refine ⟨?_, ?_, ?_, ?_, ?_, ?_⟩
  · simp only [computePro, computeRatesSpec, flooredConfig]
  all_goals simp only [computePro]

/-- C2. On the default configuration `computePro` returns `totalHours = 48`,
`minHourly = 31.5625` (which is within 0.01 of 31.56, as the test asserts),
`minProject = 252.5`, `finalPrice = 277.75` and `minMonthlyRevenue = 1515`. -/
theorem computePro_DEFAULTS :
    (computePro DEFAULTS).totalHours = 48 ∧
    (computePro DEFAULTS).minHourly = 31.5625 ∧
    nearly (computePro DEFAULTS).minHourly 31.56 = true ∧
    (computePro DEFAULTS).minProject = 252.5 ∧
    nearly (computePro DEFAULTS).minProject 252.5 = true ∧
    (computePro DEFAULTS).finalPrice = 277.75 ∧
    nearly (computePro DEFAULTS).finalPrice 277.75 = true ∧
    (computePro DEFAULTS).minMonthlyRevenue = 1515 := by
  have h1 : (computePro DEFAULTS).minHourly = 31.5625 := by
    norm_num [computePro, DEFAULTS]
  have h2 : (computePro DEFAULTS).minProject = 252.5 := by
    norm_num [computePro, DEFAULTS]
  have h3 : (computePro DEFAULTS).finalPrice = 277.75 := by
    norm_num [computePro, DEFAULTS]
  refine ⟨by norm_num [computePro, DEFAULTS], h1, ?_, h2, ?_, h3, ?_,
    by norm_num [computePro, DEFAULTS]⟩
  · rw [h1]; simp only [nearly, decide_eq_true_eq]; norm_num [abs_le]
  · rw [h2]; simp only [nearly, decide_eq_true_eq]; norm_num [abs_le]
  · rw [h3]; simp only [nearly, decide_eq_true_eq]; norm_num [abs_le]

theorem minHourly_eq (s : State) :
    (computePro s).minHourly =
      (max (num s.pro_monthlyTarget) (1 / 100) + max (num s.pro_toolsMonthly) 0)
        / (computePro s).totalHours := rfl

theorem minProject_pos (s : State) : 0 < (computePro s).minProject := by
  have ht := floor_target_pos s.pro_monthlyTarget
  have hh := floor_hours_pos s.pro_hoursPerProject
  have hT := totalHours_pos s
  have hu : (0 : ℚ) ≤ max (num s.pro_toolsMonthly) 0 := le_max_right _ _
  show 0 < (computePro s).minHourly * max (num s.pro_hoursPerProject) (1 / 10)
  rw [minHourly_eq]
  exact mul_pos (div_pos (by linarith) hT) hh

theorem totalsStep_comm (pro : ProResult) (z : Totals) (x y : LogRec) :
    totalsStep pro (totalsStep pro z x) y = totalsStep pro (totalsStep pro z y) x := by
  simp only [totalsStep, Totals.mk.injEq]
  refine ⟨trivial, by ring, by ring, by ring, ?_, ?_⟩ <;> split_ifs <;> rfl

theorem totals_perm {L L' : List LogRec} (pro : ProResult) (h : L.Perm L') :
    totals L' pro = totals L pro :=
  (List.Perm.foldl_eq' h (fun x _ y _ z => totalsStep_comm pro z x y) Totals.init).symm

/-- The accumulator reached from `acc` over a log, in closed form. -/
theorem foldl_totalsStep (pro : ProResult) (L : List LogRec) (acc : Totals) :
    L.foldl (totalsStep pro) acc =
      { projects := acc.projects + (L.length : ℚ)
        hours := acc.hours + (L.map (fun r => num r.hours 0)).sum
        revenue := acc.revenue + (L.map (fun r => num r.price 0)).sum
        realHourlyWeighted := acc.realHourlyWeighted
          + ((L.filter (fun r => decide (num r.hours 0 > 0))).map (fun r => num r.price 0)).sum
        above := acc.above + ((L.countP (fun r => decide (num r.hours 0 > 0 ∧
          num r.price 0 / num r.hours 0 ≥ pro.minHourly)) : ℕ) : ℚ)
        below := acc.below + ((L.countP (fun r => decide (num r.hours 0 > 0 ∧
          num r.price 0 / num r.hours 0 < pro.minHourly)) : ℕ) : ℚ) } := by
  induction L generalizing acc with
  | nil => simp
  | cons r L ih =>
    rw [List.foldl_cons, ih]
    simp only [totalsStep, Totals.mk.injEq, List.length_cons, List.map_cons, List.sum_cons,
      List.filter_cons, List.countP_cons, Nat.cast_add, Nat.cast_one, Nat.cast_ite, Nat.cast_zero]
    refine ⟨by ring, by ring, by ring, ?_, ?_, ?_⟩
    · by_cases h : num r.hours 0 > 0
      · have h0 : num r.hours 0 ≠ 0 := h.ne'
        simp only [h, if_true, decide_True, List.map_cons, List.sum_cons]
        rw [div_mul_cancel₀ _ h0]; ring
      · simp only [h, if_false, decide_False, zero_mul, add_zero]
        simp
    · by_cases h : num r.hours 0 > 0
      · by_cases h2 : num r.price 0 / num r.hours 0 ≥ pro.minHourly
        · simp only [h, h2, if_true, decide_True, and_self, ge_iff_le]
          ring
        · simp [h, h2]
      · simp [h]
    · by_cases h : num r.hours 0 > 0
      · by_cases h2 : num r.price 0 / num r.hours 0 ≥ pro.minHourly
        · simp [h, h2]
        · have h3 : num r.price 0 / num r.hours 0 < pro.minHourly := not_le.mp h2
          simp only [h, h2, h3, if_true, if_false, decide_True, and_self, ge_iff_le]
          ring
      · simp [h]

theorem totals_closed_form (L : List LogRec) (pro : ProResult) :
    totals L pro =
      { projects := (L.length : ℚ)
        hours := (L.map (fun r => num r.hours 0)).sum
        revenue := (L.map (fun r => num r.price 0)).sum
        realHourlyWeighted :=
          ((L.filter (fun r => decide (num r.hours 0 > 0))).map (fun r => num r.price 0)).sum
        above := ((L.countP (fun r => decide (num r.hours 0 > 0 ∧
          num r.price 0 / num r.hours 0 ≥ pro.minHourly)) : ℕ) : ℚ)
        below := ((L.countP (fun r => decide (num r.hours 0 > 0 ∧
          num r.price 0 / num r.hours 0 < pro.minHourly)) : ℕ) : ℚ) } := by
  rw [totals, foldl_totalsStep]
  simp [Totals.init]

theorem realRate_mul_hours (r : LogRec) :
    realRate r * num r.hours 0 = if num r.hours 0 > 0 then num r.price 0 else 0 := by
  unfold realRate
  by_cases h : num r.hours 0 > 0
  · rw [if_pos h, if_pos h, div_mul_cancel₀ _ h.ne']
  · rw [if_neg h, if_neg h, zero_mul]

theorem sum_realRate_mul_hours (L : List LogRec) :
    (L.map (fun r => realRate r * num r.hours 0)).sum
      = ((L.filter (fun r => decide (num r.hours 0 > 0))).map (fun r => num r.price 0)).sum := by
  induction L with
  | nil => rfl
  | cons r L ih =>
    rw [List.map_cons, List.sum_cons, ih, realRate_mul_hours, List.filter_cons]
    by_cases h : num r.hours 0 > 0
    · simp [h]
    · simp [h]

/-- C9. For the empty log and every minimum hourly rate the rollup is all zero: the six
accumulator fields, `avgRealHourly`, `pctAbove` and `pctBelow` are 0, and no division is
evaluated (the list of divisors is empty, so none is evaluated with a zero divisor). -/
theorem totals_nil (pro : ProResult) :
    (totals [] pro).projects = 0 ∧ (totals [] pro).hours = 0 ∧ (totals [] pro).revenue = 0 ∧
    (totals [] pro).realHourlyWeighted = 0 ∧ (totals [] pro).above = 0 ∧
    (totals [] pro).below = 0 ∧
    avgRealHourly (totals [] pro) = 0 ∧ pctAbove (totals [] pro) = 0 ∧
    pctBelow (totals [] pro) = 0 ∧
    rollupDivisors [] pro = [] := by
  refine ⟨rfl, rfl, rfl, rfl, rfl, rfl, ?_, ?_, ?_, ?_⟩
  · simp [avgRealHourly, totals, Totals.init]
  · simp [pctAbove, totals, Totals.init]
  · simp [pctBelow, totals, Totals.init]
  · simp [rollupDivisors, totals, Totals.init]

/-! ## Comparator: theorems -/

/-- C11. For every comparator input and every minimum hourly rate,
`realHourly = max(num(price), 0.01) / max(num(hours), 0.1)`, its divisor is at least 0.1 (so
non-zero) and `realHourly` is strictly positive; `deviation = realHourly − minHourly`; and the
diagnostic is the "Bien" text in green (AtOrAboveMinimum) exactly when the deviation is ≥ 0.
On the defaults (price 250, hours 6, minHourly 31.5625): `realHourly = 250/6`, within 0.01 of
41.67, the deviation is within 0.01 of 10.10 and the diagnostic is AtOrAboveMinimum. -/
theorem comparator_correct (state : State) (pro : ProResult) :
    realHourly state = max (num state.cmp_price) (1 / 100) / max (num state.cmp_hours) (1 / 10) ∧
    (1 / 10 : ℚ) ≤ max (num state.cmp_hours) (1 / 10) ∧
    max (num state.cmp_hours) (1 / 10) ≠ 0 ∧
    0 < realHourly state ∧
    diffHourly state pro = realHourly state - pro.minHourly ∧
    (diagText state pro = "Bien: estás cobrando en o por encima de tu mínima."
      ↔ diffHourly state pro ≥ 0) ∧
    (diagColor state pro = "#16a34a" ↔ diffHourly state pro ≥ 0) ∧
    (realHourly DEFAULTS = 250 / 6 ∧
     nearly (realHourly DEFAULTS) 41.67 = true ∧
     nearly (diffHourly DEFAULTS (computePro DEFAULTS)) 10.10 = true ∧
     diffHourly DEFAULTS (computePro DEFAULTS) ≥ 0 ∧
     diagText DEFAULTS (computePro DEFAULTS)
       = "Bien: estás cobrando en o por encima de tu mínima." ∧
     diagColor DEFAULTS (computePro DEFAULTS) = "#16a34a") := by
  have hp := floor_target_pos state.cmp_price
  have hh := floor_hours_pos state.cmp_hours
  have hr : realHourly DEFAULTS = 250 / 6 := by norm_num [realHourly, DEFAULTS]
  have hd : diffHourly DEFAULTS (computePro DEFAULTS) = 250 / 6 - 31.5625 := by
    have hm : (computePro DEFAULTS).minHourly = 31.5625 := by norm_num [computePro, DEFAULTS]
    rw [diffHourly, hr, hm]
  have hd0 : diffHourly DEFAULTS (computePro DEFAULTS) ≥ 0 := by rw [hd]; norm_num
  refine ⟨rfl, le_max_right _ _, hh.ne', div_pos hp hh, rfl, ?_, ?_, hr, ?_, ?_, hd0, ?_, ?_⟩
  · unfold diagText
    by_cases h : diffHourly state pro ≥ 0
    · simp [h]
    · rw [if_neg h]
      constructor
      · intro habs
        exact absurd habs (by decide)
      · intro h2
        exact absurd h2 h
  · unfold diagColor
    by_cases h : diffHourly state pro ≥ 0
    · simp [h]
    · rw [if_neg h]
      constructor
      · intro habs
        exact absurd habs (by decide)
      · intro h2
        exact absurd h2 h
  · rw [hr]; simp only [nearly, decide_eq_true_eq]; norm_num [abs_le]
  · rw [hd]; simp only [nearly, decide_eq_true_eq]; norm_num [abs_le]
  · rw [diagText, if_pos hd0]
  · rw [diagColor, if_pos hd0]

theorem num_of_finite (v : JSVal) (d n : ℚ) (h : parseCoerced v = JSNumber.finite n) :
    num v d = n := by
  rw [num, h]

theorem num_of_not_finite (v : JSVal) (d : ℚ) (h : (parseCoerced v).isFinite = false) :
    num v d = d := by
  unfold num
  cases hp : parseCoerced v with
  | finite q => rw [hp] at h; exact absurd h (by simp [JSNumber.isFinite])
  | nan => rfl
  | posInf => rfl
  | negInf => rfl

theorem numJS_finite (v : JSVal) (d : ℚ) :
    numJS v (JSNumber.finite d) = JSNumber.finite (num v d) := by
  unfold numJS num
  cases parseCoerced v <;> simp [JSNumber.isFinite]

theorem isDecDigit_digitChar (d : Nat) (h : d < 10) : isDecDigit (Nat.digitChar d) = true := by
  interval_cases d <;> rfl

theorem digitVal_digitChar (d : Nat) (h : d < 10) : digitVal (Nat.digitChar d) = d := by
  interval_cases d <;> rfl

theorem foldl_digits_eq (l : List Char) (a : Nat) :
    l.foldl (fun n c => 10 * n + digitVal c) a = a * 10 ^ l.length + digitsVal l := by
  induction l generalizing a with
  | nil => simp [digitsVal]
  | cons c l ih =>
    simp only [List.foldl_cons, List.length_cons, digitsVal]
    rw [ih, ih (10 * 0 + digitVal c)]
    ring

theorem digitsVal_cons (c : Char) (l : List Char) :
    digitsVal (c :: l) = digitVal c * 10 ^ l.length + digitsVal l := by
  rw [digitsVal, List.foldl_cons, foldl_digits_eq]
  ring

theorem digitsVal_append (a b : List Char) :
    digitsVal (a ++ b) = digitsVal a * 10 ^ b.length + digitsVal b := by
  rw [digitsVal, List.foldl_append, foldl_digits_eq]
  rfl

theorem digitsVal_reverse_map (l : List Nat) (h : ∀ d ∈ l, d < 10) :
    digitsVal (l.reverse.map Nat.digitChar) = Nat.ofDigits 10 l := by
  induction l with
  | nil => rfl
  | cons d t ih =>
    rw [List.reverse_cons, List.map_append, digitsVal_append,
      ih (fun x hx => h x (List.mem_cons_of_mem _ hx)), Nat.ofDigits_cons]
    simp only [List.map_cons, List.map_nil, List.length_singleton, pow_one, digitsVal_cons,
      List.length_nil, pow_zero, mul_one]
    rw [digitVal_digitChar d (h d (List.mem_cons_self _ _))]
    simp [digitsVal]
    ring

theorem digitsVal_natDigits (n : Nat) : digitsVal (natDigits n) = n := by
  unfold natDigits
  by_cases h : n = 0
  · subst h; rfl
  · rw [if_neg h, digitsVal_reverse_map _ (fun d hd => Nat.digits_lt_base (by norm_num) hd),
      Nat.ofDigits_digits]

theorem natDigits_allDigits (n : Nat) : ∀ c ∈ natDigits n, isDecDigit c = true := by
  unfold natDigits
  by_cases h : n = 0
  · subst h; intro c hc; simp at hc; subst hc; rfl
  · rw [if_neg h]
    intro c hc
    simp only [List.mem_map, List.mem_reverse] at hc
    obtain ⟨d, hd, rfl⟩ := hc
    exact isDecDigit_digitChar d (Nat.digits_lt_base (by norm_num) hd)

theorem natDigits_ne_nil (n : Nat) : natDigits n ≠ [] := by
  unfold natDigits
  by_cases h : n = 0
  · subst h; simp
  · rw [if_neg h]
    simp [Nat.digits_ne_nil_iff_ne_zero, h]

theorem fracDigits_allDigits (den : Nat) (fuel r : Nat) (hr : r < den) :
    ∀ c ∈ fracDigits fuel r den, isDecDigit c = true := by
  induction fuel generalizing r with
  | zero => intro c hc; simp [fracDigits] at hc
  | succ fuel ih =>
    intro c hc
    unfold fracDigits at hc
    by_cases h0 : r = 0
    · simp [h0] at hc
    · rw [if_neg h0] at hc
      have hden : 0 < den := lt_of_le_of_lt (Nat.zero_le _) hr
      rcases List.mem_cons.mp hc with rfl | hc
      · apply isDecDigit_digitChar
        rw [Nat.div_lt_iff_lt_mul hden]
        omega
      · exact ih _ (Nat.mod_lt _ hden) c hc

theorem fracDigits_spec (den : Nat) (fuel r : Nat) (hr : r < den)
    (hdvd : den ∣ r * 10 ^ fuel) :
    digitsVal (fracDigits fuel r den) * den = r * 10 ^ (fracDigits fuel r den).length := by
  induction fuel generalizing r with
  | zero =>
    have : r = 0 := by
      rw [pow_zero, mul_one] at hdvd
      exact Nat.eq_zero_of_dvd_of_lt hdvd hr
    subst this
    simp [fracDigits, digitsVal]
  | succ fuel ih =>
    unfold fracDigits
    by_cases h0 : r = 0
    · simp [h0, digitsVal]
    · rw [if_neg h0]
      have hden : 0 < den := lt_of_le_of_lt (Nat.zero_le _) hr
      have hdecomp : den * (10 * r / den) + 10 * r % den = 10 * r := Nat.div_add_mod _ _
      have hdvd2 : den ∣ (10 * r % den) * 10 ^ fuel := by
        have h1 : den ∣ (10 * r) * 10 ^ fuel := by
          have : r * 10 ^ (fuel + 1) = (10 * r) * 10 ^ fuel := by ring
          rw [← this]; exact hdvd
        have h2 : (10 * r) * 10 ^ fuel
            = den * ((10 * r / den) * 10 ^ fuel) + (10 * r % den) * 10 ^ fuel := by
          nth_rewrite 1 [← hdecomp]; ring
        rw [h2] at h1
        exact (Nat.dvd_add_right (Dvd.intro _ rfl)).mp h1
      have hq : 10 * r / den < 10 := by
        rw [Nat.div_lt_iff_lt_mul hden]; omega
      rw [digitsVal_cons, digitVal_digitChar _ hq, List.length_cons, add_mul,
        ih _ (Nat.mod_lt _ hden) hdvd2]
      generalize 10 * r / den = d at hdecomp
      generalize 10 * r % den = m at hdecomp
      generalize (fracDigits fuel m den).length = L
      calc d * 10 ^ L * den + m * 10 ^ L = (den * d + m) * 10 ^ L := by ring
        _ = r * 10 ^ (L + 1) := by rw [hdecomp]; ring

theorem dvd_ten_pow_self (den : Nat) (hk : ∃ k, den ∣ 10 ^ k) : den ∣ 10 ^ den := by
  induction den using Nat.strong_induction_on with
  | _ den ih =>
    obtain ⟨k, hk⟩ := hk
    by_cases h1 : den = 1
    · subst h1; exact one_dvd _
    · have hpos : 0 < den := by
        rcases Nat.eq_zero_or_pos den with h | h
        · subst h; simp at hk
        · exact h
      have hg : 1 < Nat.gcd den 10 := by
        by_contra hng
        have hg1 : Nat.gcd den 10 = 1 := by
          have : 0 < Nat.gcd den 10 := Nat.gcd_pos_of_pos_left _ hpos
          omega
        have hcop : Nat.Coprime den (10 ^ k) := Nat.Coprime.pow_right k hg1
        exact h1 (Nat.Coprime.eq_one_of_dvd hcop hk)
      obtain ⟨m, hm⟩ := Nat.gcd_dvd_left den 10
      have hmpos : 0 < m := by
        rcases Nat.eq_zero_or_pos m with h | h
        · subst h; omega
        · exact h
      have hmlt : m < den := by
        rw [hm]
        calc m = 1 * m := (one_mul m).symm
          _ < Nat.gcd den 10 * m := Nat.mul_lt_mul_of_pos_right hg hmpos
      have hmdvd : m ∣ 10 ^ k := Dvd.dvd.trans (Dvd.intro_left _ hm.symm) hk
      have hm2 : m ∣ 10 ^ m := ih m hmlt ⟨k, hmdvd⟩
      have h3 : den ∣ 10 * 10 ^ m := by
        rw [hm]; exact Nat.mul_dvd_mul (Nat.gcd_dvd_right den 10) hm2
      have h4 : 10 * 10 ^ m = 10 ^ (m + 1) := by ring
      rw [h4] at h3
      exact h3.trans (pow_dvd_pow 10 hmlt)

theorem not_white_of_digit (c : Char) (h : isDecDigit c = true) : isJSWhiteSpace c = false := by
  simp only [isDecDigit, Bool.and_eq_true, decide_eq_true_eq] at h
  simp only [isJSWhiteSpace, Bool.or_eq_false_iff, Bool.and_eq_false_iff, decide_eq_false_iff_not]
  omega

theorem ne_of_digit (c a : Char) (h : isDecDigit c = true) (ha : isDecDigit a = false) :
    c ≠ a := by
  intro hca
  rw [hca, ha] at h
  exact Bool.false_ne_true h

theorem not_isPrefixOf_Infinity (c : Char) (cs : List Char) (h : isDecDigit c = true) :
    "Infinity".toList.isPrefixOf (c :: cs) = false := by
  have hI : c ≠ 'I' := ne_of_digit c 'I' h (by rfl)
  have : "Infinity".toList = 'I' :: "nfinity".toList := rfl
  rw [this, List.isPrefixOf]
  simp [Ne.symm hI]

theorem parseUnsigned_digits (ds : List Char) (hne : ds ≠ [])
    (hd : ∀ c ∈ ds, isDecDigit c = true) :
    parseUnsigned ds = some (ParsedLit.dec (digitsVal ds) 0) := by
  obtain ⟨c, cs, rfl⟩ := List.exists_cons_of_ne_nil hne
  have ht : (c :: cs).takeWhile isDecDigit = c :: cs := List.takeWhile_eq_self_iff.mpr hd
  have hdw : (c :: cs).dropWhile isDecDigit = [] := List.dropWhile_eq_nil_iff.mpr hd
  unfold parseUnsigned
  rw [not_isPrefixOf_Infinity c cs (hd c (List.mem_cons_self _ _))]
  simp only [ht, hdw]
  simp [exponentPart]

theorem parseUnsigned_digits_point (ds fs : List Char) (hne : ds ≠ [])
    (hd : ∀ c ∈ ds, isDecDigit c = true) (hf : ∀ c ∈ fs, isDecDigit c = true) :
    parseUnsigned (ds ++ '.' :: fs)
      = some (ParsedLit.dec (digitsVal (ds ++ fs)) (-(fs.length : Int))) := by
  obtain ⟨c, cs, rfl⟩ := List.exists_cons_of_ne_nil hne
  have hp : isDecDigit '.' = false := by rfl
  have ht : ((c :: cs) ++ '.' :: fs).takeWhile isDecDigit = c :: cs := by
    rw [List.takeWhile_append_of_pos hd, List.takeWhile_cons_of_neg (by simp [hp])]
    simp
  have hdw : ((c :: cs) ++ '.' :: fs).dropWhile isDecDigit = '.' :: fs := by
    rw [List.dropWhile_append_of_pos hd, List.dropWhile_cons_of_neg (by simp [hp])]
  have ht2 : fs.takeWhile isDecDigit = fs := List.takeWhile_eq_self_iff.mpr hf
  have hdw2 : fs.dropWhile isDecDigit = [] := List.dropWhile_eq_nil_iff.mpr hf
  unfold parseUnsigned
  have hpre : "Infinity".toList.isPrefixOf ((c :: cs) ++ '.' :: fs) = false :=
    not_isPrefixOf_Infinity c (cs ++ '.' :: fs) (hd c (List.mem_cons_self _ _))
  rw [hpre]
  simp only [ht, hdw, ht2, hdw2]
  simp [exponentPart]

theorem parseFloat_mk_digit (c : Char) (cs : List Char) (hc : isDecDigit c = true) :
    parseFloat (String.mk (c :: cs))
      = ((parseUnsigned (c :: cs)).map ParsedLit.value).getD JSNumber.nan := by
  have hw : (c :: cs).dropWhile isJSWhiteSpace = c :: cs :=
    List.dropWhile_cons_of_neg (by simp [not_white_of_digit c hc])
  have hplus : c ≠ '+' := ne_of_digit c '+' hc (by rfl)
  have hminus : c ≠ '-' := ne_of_digit c '-' hc (by rfl)
  unfold parseFloat
  show (match (c :: cs).dropWhile isJSWhiteSpace with
    | '+' :: cs => ((parseUnsigned cs).map ParsedLit.value).getD JSNumber.nan
    | '-' :: cs =>
      ((parseUnsigned cs).map (fun (l : ParsedLit) => l.value.neg)).getD JSNumber.nan
    | cs => ((parseUnsigned cs).map ParsedLit.value).getD JSNumber.nan) = _
  rw [hw]
  split
  · rename_i heq; exact absurd (List.cons.inj heq).1 hplus
  · rename_i heq; exact absurd (List.cons.inj heq).1 hminus
  · rfl

theorem parseFloat_mk_minus (cs : List Char) :
    parseFloat (String.mk ('-' :: cs))
      = ((parseUnsigned cs).map (fun l => l.value.neg)).getD JSNumber.nan := by
  rfl

theorem replaceFirstComma_of_no_comma (cs : List Char) (h : ∀ c ∈ cs, c ≠ ',') :
    replaceFirstComma cs = cs := by
  induction cs with
  | nil => rfl
  | cons c cs ih =>
    rw [replaceFirstComma, if_neg (h c (List.mem_cons_self _ _)),
      ih (fun x hx => h x (List.mem_cons_of_mem _ hx))]

theorem scale10_neg (m L : Nat) : scale10 m (-(L : Int)) = (m : ℚ) / (10 : ℚ) ^ L := by
  unfold scale10
  by_cases h : L = 0
  · subst h; simp
  · have : ¬ (0 : Int) ≤ -(L : Int) := by omega
    rw [if_neg this]
    simp

theorem abs_eq_natAbs_div (q : ℚ) : |q| = (q.num.natAbs : ℚ) / (q.den : ℚ) := by
  rw [Rat.abs_def, Rat.divInt_eq_div]
  simp only [Int.cast_natCast]

theorem absDecimal_head (q : ℚ) :
    ∃ c cs, absDecimal q = c :: cs ∧ isDecDigit c = true := by
  obtain ⟨c, cs, h⟩ := List.exists_cons_of_ne_nil (natDigits_ne_nil (q.num.natAbs / q.den))
  refine ⟨c, cs ++ (if q.num.natAbs % q.den = 0 then []
     else '.' :: fracDigits q.den (q.num.natAbs % q.den) q.den), ?_, ?_⟩
  · rw [absDecimal, h]; rfl
  · exact natDigits_allDigits _ c (h ▸ List.mem_cons_self _ _)

theorem absDecimal_no_comma (q : ℚ) : ∀ c ∈ absDecimal q, c ≠ ',' := by
  intro c hc
  have hden : 0 < q.den := q.den_pos
  unfold absDecimal at hc
  rcases List.mem_append.mp hc with h | h
  · exact ne_of_digit c ',' (natDigits_allDigits _ c h) (by rfl)
  · by_cases hr : q.num.natAbs % q.den = 0
    · rw [if_pos hr] at h; simp at h
    · rw [if_neg hr] at h
      rcases List.mem_cons.mp h with rfl | h
      · decide
      · exact ne_of_digit c ','
          (fracDigits_allDigits _ _ _ (Nat.mod_lt _ hden) c h) (by rfl)

theorem parseUnsigned_absDecimal (q : ℚ) (hk : ∃ k, q.den ∣ 10 ^ k) :
    ∃ l, parseUnsigned (absDecimal q) = some l ∧ l.value = JSNumber.finite |q| := by
  have hden : 0 < q.den := q.den_pos
  have hdenQ : (q.den : ℚ) ≠ 0 := by exact_mod_cast hden.ne'
  have hdecomp : q.den * (q.num.natAbs / q.den) + q.num.natAbs % q.den = q.num.natAbs :=
    Nat.div_add_mod _ _
  unfold absDecimal
  by_cases hr : q.num.natAbs % q.den = 0
  · rw [if_pos hr, List.append_nil,
      parseUnsigned_digits _ (natDigits_ne_nil _) (natDigits_allDigits _)]
    refine ⟨_, rfl, ?_⟩
    rw [ParsedLit.value, digitsVal_natDigits, abs_eq_natAbs_div]
    congr 1
    rw [hr, add_zero] at hdecomp
    have h0 : scale10 (q.num.natAbs / q.den) 0 = ((q.num.natAbs / q.den : ℕ) : ℚ) := by
      simp [scale10]
    rw [h0, eq_div_iff hdenQ]
    exact_mod_cast (by rw [mul_comm]; exact hdecomp)
  · rw [if_neg hr, parseUnsigned_digits_point _ _ (natDigits_ne_nil _) (natDigits_allDigits _)
      (fracDigits_allDigits _ _ _ (Nat.mod_lt _ hden))]
    refine ⟨_, rfl, ?_⟩
    have hspec := fracDigits_spec q.den q.den (q.num.natAbs % q.den) (Nat.mod_lt _ hden)
      (Dvd.dvd.mul_left (dvd_ten_pow_self q.den hk) _)
    rw [ParsedLit.value, scale10_neg, digitsVal_append, digitsVal_natDigits, abs_eq_natAbs_div]
    congr 1
    generalize (fracDigits q.den (q.num.natAbs % q.den) q.den).length = L at hspec
    generalize digitsVal (fracDigits q.den (q.num.natAbs % q.den) q.den) = F at hspec
    generalize q.num.natAbs / q.den = I at hdecomp
    generalize q.num.natAbs % q.den = r at hdecomp hspec
    generalize q.num.natAbs = n at hdecomp
    have hL : ((10 : ℚ) ^ L) ≠ 0 := pow_ne_zero _ (by norm_num)
    rw [div_eq_div_iff hL hdenQ]
    have key : (I * 10 ^ L + F) * q.den = n * 10 ^ L := by
      calc (I * 10 ^ L + F) * q.den = q.den * I * 10 ^ L + F * q.den := by ring
        _ = q.den * I * 10 ^ L + r * 10 ^ L := by rw [hspec]
        _ = (q.den * I + r) * 10 ^ L := by ring
        _ = n * 10 ^ L := by rw [hdecomp]
    exact_mod_cast key

theorem num_numberToString (q : ℚ) (hk : ∃ k, q.den ∣ 10 ^ k) (d : ℚ) :
    num (JSVal.string (numberToString q)) d = q := by
  obtain ⟨l, hl, hv⟩ := parseUnsigned_absDecimal q hk
  obtain ⟨c, cs, hcs, hc⟩ := absDecimal_head q
  apply num_of_finite
  by_cases hq : q < 0
  · have hrep : replaceFirstComma ('-' :: absDecimal q) = '-' :: absDecimal q := by
      apply replaceFirstComma_of_no_comma
      intro x hx
      rcases List.mem_cons.mp hx with rfl | hx
      · decide
      · exact absDecimal_no_comma q x hx
    show parseFloat (String.mk (replaceFirstComma (numberToString q).toList)) = _
    have hts : (numberToString q).toList = '-' :: absDecimal q := by
      unfold numberToString; rw [if_pos hq]; rfl
    rw [hts, hrep, parseFloat_mk_minus, hl]
    show l.value.neg = _
    rw [hv, JSNumber.neg, abs_of_neg hq, neg_neg]
  · have hrep : replaceFirstComma (absDecimal q) = absDecimal q :=
      replaceFirstComma_of_no_comma _ (absDecimal_no_comma q)
    show parseFloat (String.mk (replaceFirstComma (numberToString q).toList)) = _
    have hts : (numberToString q).toList = absDecimal q := by
      unfold numberToString; rw [if_neg hq]; rfl
    rw [hts, hrep]
    rw [hcs] at hl ⊢
    rw [parseFloat_mk_digit c cs hc, hl]
    show l.value = _
    rw [hv, abs_of_nonneg (not_lt.mp hq)]

theorem scale10_den (m : Nat) (e : Int) : ∃ k, (scale10 m e).den ∣ 10 ^ k := by
  unfold scale10
  by_cases h : 0 ≤ e
  · rw [if_pos h]
    refine ⟨0, ?_⟩
    have : (m : ℚ) * (10 : ℚ) ^ e.toNat = ((m * 10 ^ e.toNat : ℕ) : ℚ) := by push_cast; ring
    rw [this, Rat.den_natCast]
    exact one_dvd _
  · rw [if_neg h]
    refine ⟨(-e).toNat, ?_⟩
    have : (m : ℚ) / (10 : ℚ) ^ (-e).toNat
        = Rat.divInt (m : ℤ) ((10 ^ (-e).toNat : ℕ) : ℤ) := by
      rw [Rat.divInt_eq_div]; push_cast; ring
    rw [this]
    exact Int.natCast_dvd_natCast.mp (Rat.den_dvd _ _)

theorem parseFloat_den (str : String) (q : ℚ) (h : parseFloat str = JSNumber.finite q) :
    ∃ k, q.den ∣ 10 ^ k := by
  have key : ∀ o : Option ParsedLit,
      ((o.map ParsedLit.value).getD JSNumber.nan = JSNumber.finite q →
        ∃ k, q.den ∣ 10 ^ k) ∧
      ((o.map (fun (l : ParsedLit) => l.value.neg)).getD JSNumber.nan = JSNumber.finite q →
        ∃ k, q.den ∣ 10 ^ k) := by
    intro o
    cases o with
    | none => constructor <;> intro h <;> simp at h
    | some l =>
      cases l with
      | inf => constructor <;> intro h <;> simp [ParsedLit.value, JSNumber.neg] at h
      | dec m e =>
        constructor
        · intro h
          simp only [Option.map_some', Option.getD_some, ParsedLit.value,
            JSNumber.finite.injEq] at h
          rw [← h]; exact scale10_den m e
        · intro h
          simp only [Option.map_some', Option.getD_some, ParsedLit.value, JSNumber.neg,
            JSNumber.finite.injEq] at h
          rw [← h, Rat.den_neg_eq_den]; exact scale10_den m e
  unfold parseFloat at h
  split at h
  · exact (key _).1 h
  · exact (key _).2 h
  · exact (key _).1 h

theorem num_string_den (s : String) : ∃ k, (num (JSVal.string s) 0).den ∣ 10 ^ k := by
  unfold num
  cases hp : parseCoerced (JSVal.string s) with
  | finite q => exact parseFloat_den _ q hp
  | nan => exact ⟨0, by simp⟩
  | posInf => exact ⟨0, by simp⟩
  | negInf => exact ⟨0, by simp⟩

theorem num_stored (s : String) (d : ℚ) :
    num (JSVal.string (numberToString (num (JSVal.string s) 0))) d = num (JSVal.string s) 0 :=
  num_numberToString _ (num_string_den s) d

/-! ## Log handlers: theorems -/

theorem foldl_apply_origin (actions acts : List LogAction) (L0 : List LogRec)
    (hsub : ∀ a ∈ acts, a ∈ actions)
    (h0 : ∀ r ∈ L0, ∃ logInput newId today, LogAction.add logInput newId today ∈ actions ∧
      r.id = newId ∧ num r.price 0 = num (JSVal.string logInput.price) 0 ∧
      num r.hours 0 = num (JSVal.string logInput.hours) 0) :
    ∀ r ∈ acts.foldl (fun L a => a.apply L) L0,
      ∃ logInput newId today, LogAction.add logInput newId today ∈ actions ∧
      r.id = newId ∧ num r.price 0 = num (JSVal.string logInput.price) 0 ∧
      num r.hours 0 = num (JSVal.string logInput.hours) 0 := by
  induction acts generalizing L0 with
  | nil => exact h0
  | cons a acts ih =>
    rw [List.foldl_cons]
    apply ih _ (fun x hx => hsub x (List.mem_cons_of_mem _ hx))
    intro r hr
    cases a with
    | add logInput newId today =>
      rcases List.mem_cons.mp hr with rfl | hr
      · exact ⟨logInput, newId, today, hsub _ (List.mem_cons_self _ _), rfl,
          num_stored _ 0, num_stored _ 0⟩
      · exact h0 r hr
    | del id =>
      exact h0 r (List.mem_of_mem_filter hr)
    | clear confirmed =>
      cases confirmed with
      | true => simp [LogAction.apply, clearLog] at hr
      | false => exact h0 r hr

/-- C13 (as stated, refuted). From the empty log, one `addLog` with the texts `-5` and `-2`
typed in the price and hours fields stores an entry whose price coerces to -5 and whose hours
coerce to -2: the entries are not all non-negative. -/
theorem addLog_stores_negative :
    (runLog [LogAction.add ⟨"Logo", "-5", "-2", ""⟩ "1" "2025-01-01"]).map
        (fun r => (num r.price 0, num r.hours 0)) = [(-5, -2)] ∧
    ¬ (∀ r ∈ runLog [LogAction.add ⟨"Logo", "-5", "-2", ""⟩ "1" "2025-01-01"],
        0 ≤ num r.price 0 ∧ 0 ≤ num r.hours 0) := by
  have h5 : num (JSVal.string "-5") 0 = -5 := by
    have h : parseCoerced (JSVal.string "-5") = JSNumber.finite (-(scale10 5 0)) := by rfl
    rw [num_of_finite _ _ _ h]; norm_num [scale10]
  have h2 : num (JSVal.string "-2") 0 = -2 := by
    have h : parseCoerced (JSVal.string "-2") = JSNumber.finite (-(scale10 2 0)) := by rfl
    rw [num_of_finite _ _ _ h]; norm_num [scale10]
  have hrun : runLog [LogAction.add ⟨"Logo", "-5", "-2", ""⟩ "1" "2025-01-01"]
      = [⟨"1", "Logo", JSVal.string (numberToString (num (JSVal.string "-5") 0)),
          JSVal.string (numberToString (num (JSVal.string "-2") 0)), "2025-01-01"⟩] := by
    rfl
  rw [hrun]
  constructor
  · simp only [List.map_cons, List.map_nil, num_stored]
    rw [h5, h2]
  · intro hall
    have hneg : 0 ≤ num (JSVal.string (numberToString (num (JSVal.string "-5") 0))) 0 :=
      (hall _ (List.mem_cons_self _ _)).1
    rw [num_stored, h5] at hneg
    norm_num at hneg

/-- C13 (amended). Starting from the empty log, after any sequence of `addLog`, `delLog` and
`clearLog`: every entry was put there by an `addLog` of the sequence and its stored price and
hours coerce to exactly the numbers that the texts typed for it coerced to (no floor is
applied), so they are non-negative whenever every typed price and hours is non-negative;
`addLog` puts the new entry at the front; `delLog` removes exactly the entries with the given
id and leaves the others in order; a confirmed `clearLog` empties the log. -/
theorem log_entries_as_typed (actions : List LogAction) :
    (∀ r ∈ runLog actions,
      ∃ logInput newId today, LogAction.add logInput newId today ∈ actions ∧
        r.id = newId ∧ num r.price 0 = num (JSVal.string logInput.price) 0 ∧
        num r.hours 0 = num (JSVal.string logInput.hours) 0) ∧
    ((∀ logInput newId today, LogAction.add logInput newId today ∈ actions →
        0 ≤ num (JSVal.string logInput.price) 0 ∧ 0 ≤ num (JSVal.string logInput.hours) 0) →
      ∀ r ∈ runLog actions, 0 ≤ num r.price 0 ∧ 0 ≤ num r.hours 0) ∧
    (∀ (logInput : LogInput) (newId today : String) (L : List LogRec),
      ∃ r, addLog logInput newId today L = r :: L ∧ r.id = newId ∧
        num r.price 0 = num (JSVal.string logInput.price) 0 ∧
        num r.hours 0 = num (JSVal.string logInput.hours) 0) ∧
    (∀ (id : String) (L : List LogRec),
      (∀ r, r ∈ delLog id L ↔ r ∈ L ∧ r.id ≠ id) ∧
      (delLog id L).Sublist L ∧
      delLog id L = L.filter (fun r => decide (r.id ≠ id))) ∧
    (∀ L : List LogRec, clearLog true L = [] ∧ clearLog false L = L) := by
  have horigin := foldl_apply_origin actions actions [] (fun _ h => h)
    (fun r hr => absurd hr (List.not_mem_nil r))
  refine ⟨horigin, ?_, ?_, ?_, ?_⟩
  · intro hpos r hr
    obtain ⟨logInput, newId, today, hmem, _, hp, hh⟩ := horigin r hr
    rw [hp, hh]
    exact hpos logInput newId today hmem
  · intro logInput newId today L
    exact ⟨_, rfl, rfl, num_stored _ 0, num_stored _ 0⟩
  · intro id L
    refine ⟨?_, List.filter_sublist L, ?_⟩
    · intro r
      simp [delLog, List.mem_filter]
    · unfold delLog
      congr 1
      funext r
      simp [bne]
      by_cases h : r.id = id <;> simp [h]
  · intro L
    exact ⟨rfl, rfl⟩

/-- C13 witness: two entries typed with non-negative values, the first then deleted. -/
theorem log_entries_as_typed_witness :
    (runLog [LogAction.add ⟨"Logo", "300", "10", ""⟩ "1" "2025-01-01",
             LogAction.add ⟨"", "100", "0", ""⟩ "2" "2025-01-02",
             LogAction.del "1"]).length = 1 ∧
    ∀ r ∈ runLog [LogAction.add ⟨"Logo", "300", "10", ""⟩ "1" "2025-01-01",
                  LogAction.add ⟨"", "100", "0", ""⟩ "2" "2025-01-02",
                  LogAction.del "1"],
      0 ≤ num r.price 0 ∧ 0 ≤ num r.hours 0 := by
  refine ⟨by decide, ?_⟩
  have h300 : num (JSVal.string "300") 0 = 300 := by
    have h : parseCoerced (JSVal.string "300") = JSNumber.finite (scale10 300 0) := by rfl
    rw [num_of_finite _ _ _ h]; norm_num [scale10]
  have h10 : num (JSVal.string "10") 0 = 10 := by
    have h : parseCoerced (JSVal.string "10") = JSNumber.finite (scale10 10 0) := by rfl
    rw [num_of_finite _ _ _ h]; norm_num [scale10]
  have h100 : num (JSVal.string "100") 0 = 100 := by
    have h : parseCoerced (JSVal.string "100") = JSNumber.finite (scale10 100 0) := by rfl
    rw [num_of_finite _ _ _ h]; norm_num [scale10]
  have h0 : num (JSVal.string "0") 0 = 0 := by
    have h : parseCoerced (JSVal.string "0") = JSNumber.finite (scale10 0 0) := by rfl
    rw [num_of_finite _ _ _ h]; norm_num [scale10]
  apply (log_entries_as_typed _).2.1
  intro logInput newId today hmem
  simp only [List.mem_cons, LogAction.add.injEq, List.mem_singleton, List.not_mem_nil,
    or_false, reduceCtorEq] at hmem
  rcases hmem with ⟨rfl, _, _⟩ | ⟨rfl, _, _⟩
  · simp only [h300, h10]; norm_num
  · simp only [h100, h0]; norm_num

end CalculadoraFreelance
